import Mathlib

/-!
Shallow embedding of `src/course-2-3d-medical-imaging-data/project-hippocampal-
volume-quantification-in-alzheimers-progression/section 3/src/inference/
UNetInferenceAgent.py`.

Volumes are 3D arrays of scalar intensities, embedded as nested lists of
rationals (numpy float arrays; exactness of ℚ is irrelevant for the claims,
which concern shapes, control flow and the degenerate zero-maximum case).
IEEE special values produced by the unguarded division are modelled
explicitly by the `Val` type.  The neural network (`networks.RecursiveUNet`)
and `torch` are external collaborators: the model is embedded as an abstract
deterministic score function together with the mutable bits the agent
touches (`eval` mode, parameter loading, device placement).
-/

namespace UNetInference

/-- A 2D slice of intensities (numpy float values, embedded as ℚ). -/
abbrev Slice := List (List ℚ)

/-- A 3D volume, indexed [depth, height, width]. -/
abbrev Vol := List Slice

/-- A prediction mask: integer class labels per voxel. -/
abbrev Mask := List (List (List ℕ))

/-- Result of a floating-point operation: a finite value or an IEEE special
value, as numpy produces them for `x / 0`. -/
inductive Val where
  | num : ℚ → Val
  | nan : Val
  | posinf : Val
  | neginf : Val
deriving DecidableEq, Repr

/-- numpy float division `a / b`: for `b = 0` numpy emits a warning (not an
exception) and yields `nan` for `0/0`, `±inf` otherwise. -/
def vdiv (a b : ℚ) : Val :=
  if b = 0 then
    if a = 0 then Val.nan else if 0 < a then Val.posinf else Val.neginf
  else Val.num (a / b)

/-- Maximum of a list of values; `np.max` of the nonempty case.  (`np.max`
of an empty array raises; the claims never exercise an empty slice, and the
0 returned here for `[]` is junk.) -/
def listMax : List ℚ → ℚ
  | [] => 0
  | x :: xs => xs.foldl max x

/-- `np.max(volume[slice_ix,:,:])`: maximum over all entries of a 2D slice. -/
def sliceMax (s : Slice) : ℚ :=
  listMax s.flatten

/-- The normalization step
`slc = volume[slice_ix,:,:].astype(np.single) / np.max(volume[slice_ix,:,:])`:
every entry divided by the slice maximum, with no guard against a zero
maximum. -/
def normSlice (s : Slice) : List (List Val) :=
  s.map (fun row => row.map (fun x => vdiv x (sliceMax s)))

/-- Index of the first maximal element: `torch.argmax(, dim=0)` returns the
index of the first occurrence of the maximum.  `bv` and `bi` are the best
value and its index so far, `ci` the index of the head of the remaining
list. -/
def argmaxAux : List ℚ → ℚ → ℕ → ℕ → ℕ
  | [], _, bi, _ => bi
  | x :: xs, bv, bi, ci =>
    if bv < x then argmaxAux xs x ci (ci + 1) else argmaxAux xs bv bi (ci + 1)

/-- `torch.argmax` over a 1D list of scores (0 on the empty list, never
exercised for a model with a positive class count). -/
def argmaxIdx : List ℚ → ℕ
  | [] => 0
  | x :: xs => argmaxAux xs x 0 1

/-- The model state the agent manipulates.  The forward pass is an abstract
deterministic function: given the normalized input slice it yields a score
for every (class, row, column) triple — the tensor `[num_classes, H, W]`
after `squeeze`.  `evalMode` is the train/eval flag toggled by `.eval()`;
`loadedFrom` records the last `load_state_dict(torch.load(path,
map_location))` as the pair (path, map_location); `device` is where `.to`
last placed the module. -/
structure ModelState where
  numClasses : ℕ
  fwd : List (List Val) → ℕ → ℕ → ℕ → ℚ
  evalMode : Bool
  loadedFrom : Option (String × String)
  device : String

/-- Modelled from the spec: `networks.RecursiveUNet.UNet` is not under
`src/`; the spec says only that the default network is "configured for a
fixed number of output classes (3)".  A fresh torch module starts in
training mode on the CPU with no loaded parameters; the weights (hence the
forward function) of the fresh network are unspecified, so the score
function here is an arbitrary fixed one. -/
def UNet (num_classes : ℕ) : ModelState :=
  { numClasses := num_classes
    fwd := fun _ _ _ _ => 0
    evalMode := false
    loadedFrom := none
    device := "cpu" }

/-- The agent: `self.model`, `self.patch_size`, `self.device`. -/
structure Agent where
  model : ModelState
  patch_size : ℕ
  device : String

/-- `UNetInferenceAgent.__init__`: store patch_size and device; default the
model to `UNet(num_classes=3)` when none is given; when the parameter path
is non-empty (Python string truthiness), load the serialized parameters
with storage mapped to the configured device; finally move the model to the
device. -/
def init (parameter_file_path : String) (model : Option ModelState)
    (device : String) (patch_size : ℕ) : Agent :=
  let m0 := match model with
    | none => UNet 3
    | some m => m
  let m1 := if parameter_file_path = "" then m0
    else { m0 with loadedFrom := some (parameter_file_path, device) }
  { model := { m1 with device := device }
    patch_size := patch_size
    device := device }

/-- The body of one loop iteration applied to a fixed volume: normalize
slice `ix`, run the forward pass, and `torch.argmax(..., dim=0)` over the
class axis at every spatial position of the slice.  The spatial extent of
the written region is the slice's own (the output buffer has the volume's
shape). -/
def predSlice (m : ModelState) (s : Slice) : List (List ℕ) :=
  let ns := normSlice s
  (List.range s.length).map (fun i =>
    (List.range (s.getD 0 []).length).map (fun j =>
      argmaxIdx ((List.range m.numClasses).map (fun c => m.fwd ns c i j))))

/-- One iteration of the slice loop as a transition on the live state
(the array bound to `volume`, the output array `slices`): it reads slice
`ix` of the volume and writes only `slices[slice_ix,:,:]`. -/
def loopStep (m : ModelState) (st : Vol × Mask) (ix : ℕ) : Vol × Mask :=
  (st.1, st.2.set ix (predSlice m (st.1.getD ix [])))

/-- `for slice_ix in range(volume.shape[0]): ...` over the loop state. -/
def sliceLoop (m : ModelState) (st : Vol × Mask) : Vol × Mask :=
  (List.range st.1.length).foldl (loopStep m) st

/-- `np.zeros(volume.shape)` for the output buffer (as a label array). -/
def zerosLike (v : Vol) : Mask :=
  v.map (fun s => s.map (fun r => r.map (fun _ => 0)))

/-- `single_volume_inference`: set the model to eval mode, then run the
slice loop over the caller's volume with a fresh zero output buffer.
Returns the final loop state (the array the caller passed in, and the
mask) together with the agent after the call. -/
def single_volume_inference (a : Agent) (volume : Vol) :
    (Vol × Mask) × Agent :=
  let a2 : Agent := { a with model := { a.model with evalMode := true } }
  (sliceLoop a2.model (volume, zerosLike volume), a2)

/-- A single slice conformed to the target spatial extent: entry (j, k) is
the original entry when both indices fall inside the original extent and
the zero fill value otherwise. -/
def reshapeSlice (s : Slice) (H W : ℕ) : Slice :=
  (List.range H).map (fun j =>
    (List.range W).map (fun k => (s.getD j []).getD k 0))

/-- Modelled from the spec: `utils.utils.med_reshape` is not under `src/`.
Per the spec (§4.2): a newly allocated zero array of the target shape with
the original values copied at their original low-side indices — zero
padding on the high side when an axis grows, cropping keeping the
low-index sub-block when it shrinks. -/
def med_reshape (v : Vol) (new_shape : ℕ × ℕ × ℕ) : Vol :=
  (List.range new_shape.1).map (fun i =>
    reshapeSlice (v.getD i []) new_shape.2.1 new_shape.2.2)

/-- `single_volume_inference_unpadded`: rebind the local `volume` to
`med_reshape(volume, (volume.shape[0], patch_size, patch_size))`, then run
the same slice loop on the reshaped array.  It does not call
`self.model.eval()`.  Returns the final loop state (the reshaped array the
loop ran over, and the mask) together with the agent after the call. -/
def single_volume_inference_unpadded (a : Agent) (volume : Vol) :
    (Vol × Mask) × Agent :=
  let v2 := med_reshape volume (volume.length, a.patch_size, a.patch_size)
  (sliceLoop a.model (v2, zerosLike v2), a)

/-- The mask returned by `single_volume_inference`. -/
def inferMask (a : Agent) (volume : Vol) : Mask :=
  (single_volume_inference a volume).1.2

/-- The mask returned by `single_volume_inference_unpadded`. -/
def inferMaskUnpadded (a : Agent) (volume : Vol) : Mask :=
  (single_volume_inference_unpadded a volume).1.2

/-- The volume's shape is [D, H, W]: D slices, each a rectangular H × W
array.  (numpy arrays are rectangular; ragged nested lists represent no
numpy array.) -/
def hasShape {α : Type} (x : List (List (List α))) (D H W : ℕ) : Prop :=
  x.length = D ∧ ∀ s ∈ x, s.length = H ∧ ∀ r ∈ s, r.length = W

/-! ### Lemmas about the slice loop -/

lemma foldl_loopStep_fst (m : ModelState) :
    ∀ (l : List ℕ) (st : Vol × Mask), (l.foldl (loopStep m) st).1 = st.1 := by
  intro l
  induction l with
  | nil => intro st; rfl
  | cons x xs ih => intro st; simp [List.foldl_cons, loopStep, ih]

lemma sliceLoop_fst (m : ModelState) (st : Vol × Mask) :
    (sliceLoop m st).1 = st.1 :=
  foldl_loopStep_fst m _ st

lemma foldl_loopStep_eq (m : ModelState) :
    ∀ (l : List ℕ) (vol : Vol) (mask : Mask),
      l.foldl (loopStep m) (vol, mask)
        = (vol, l.foldl
            (fun acc ix => acc.set ix (predSlice m (vol.getD ix []))) mask) := by
  intro l
  induction l with
  | nil => intro vol mask; rfl
  | cons x xs ih => intro vol mask; simp [List.foldl_cons, loopStep, ih]

lemma foldl_set_range {α : Type} (f : ℕ → α) :
    ∀ (D : ℕ) (init : List α), D ≤ init.length →
      (List.range D).foldl (fun acc ix => acc.set ix (f ix)) init
        = (List.range D).map f ++ init.drop D := by
  intro D
  induction D with
  | zero => intro init h; simp
  | succ n ih =>
    intro init h
    have hn : n ≤ init.length := Nat.le_of_succ_le h
    have hlt : n < init.length := h
    rw [List.range_succ, List.foldl_append, ih init hn,
      List.map_append, List.foldl_cons, List.foldl_nil, List.set_append]
    simp only [List.length_map, List.length_range, lt_irrefl, if_false,
      Nat.sub_self]
    rw [List.drop_eq_getElem_cons hlt, List.set_cons_zero]
    simp [List.append_assoc]

lemma range_map_getD {α β : Type} (g : α → β) (d : α) :
    ∀ (v : List α),
      (List.range v.length).map (fun ix => g (v.getD ix d)) = v.map g := by
  intro v
  induction v with
  | nil => simp
  | cons x xs ih =>
    simp only [List.length_cons, List.range_succ_eq_map, List.map_cons,
      List.map_map, Function.comp_def, List.getD_cons_zero,
      List.getD_cons_succ]
    exact congrArg (List.cons (g x)) ih

lemma length_zerosLike (v : Vol) : (zerosLike v).length = v.length := by
  simp [zerosLike]

lemma sliceLoop_snd (m : ModelState) (v : Vol) :
    (sliceLoop m (v, zerosLike v)).2 = v.map (fun s => predSlice m s) := by
  unfold sliceLoop
  rw [foldl_loopStep_eq]
  simp only
  rw [foldl_set_range (fun ix => predSlice m (v.getD ix [])) v.length
      (zerosLike v) (le_of_eq (length_zerosLike v).symm),
    range_map_getD (fun s => predSlice m s) [] v,
    List.drop_eq_nil_of_le (le_of_eq (length_zerosLike v)),
    List.append_nil]

lemma inferMask_eq (a : Agent) (v : Vol) :
    inferMask a v
      = v.map (fun s => predSlice { a.model with evalMode := true } s) := by
  unfold inferMask single_volume_inference
  exact sliceLoop_snd _ v

lemma length_med_reshape (v : Vol) (ns : ℕ × ℕ × ℕ) :
    (med_reshape v ns).length = ns.1 := by
  simp [med_reshape]

lemma inferMaskUnpadded_eq (a : Agent) (v : Vol) :
    inferMaskUnpadded a v
      = (med_reshape v (v.length, a.patch_size, a.patch_size)).map
          (fun s => predSlice a.model s) := by
  unfold inferMaskUnpadded single_volume_inference_unpadded
  exact sliceLoop_snd _ _

/-! ### Lemmas about argmax -/

lemma argmaxAux_lt :
    ∀ (xs : List ℚ) (bv : ℚ) (bi ci : ℕ), bi < ci →
      argmaxAux xs bv bi ci < ci + xs.length := by
  intro xs
  induction xs with
  | nil => intro bv bi ci h; simpa [argmaxAux] using h
  | cons x xs ih =>
    intro bv bi ci h
    simp only [argmaxAux, List.length_cons]
    by_cases hx : bv < x
    · rw [if_pos hx]
      have := ih x ci (ci + 1) (Nat.lt_succ_self ci)
      omega
    · rw [if_neg hx]
      have := ih bv bi (ci + 1) (Nat.lt_succ_of_lt h)
      omega

lemma argmaxIdx_lt (l : List ℚ) (h : l ≠ []) : argmaxIdx l < l.length := by
  match l with
  | [] => exact absurd rfl h
  | x :: xs =>
    have h1 := argmaxAux_lt xs x 0 1 Nat.zero_lt_one
    simp only [argmaxIdx, List.length_cons]
    omega

/-! ### Shape lemmas -/

lemma length_predSlice (m : ModelState) (s : Slice) :
    (predSlice m s).length = s.length := by
  simp [predSlice]

lemma predSlice_nil (m : ModelState) : predSlice m [] = [] := rfl

lemma mem_predSlice_length (m : ModelState) (s : Slice) :
    ∀ r ∈ predSlice m s, r.length = (s.getD 0 []).length := by
  intro r hr
  simp only [predSlice, List.mem_map] at hr
  obtain ⟨i, _, hri⟩ := hr
  simp [← hri]

lemma length_reshapeSlice (s : Slice) (H W : ℕ) :
    (reshapeSlice s H W).length = H := by
  simp [reshapeSlice]

lemma mem_reshapeSlice_length (s : Slice) (H W : ℕ) :
    ∀ r ∈ reshapeSlice s H W, r.length = W := by
  intro r hr
  simp only [reshapeSlice, List.mem_map] at hr
  obtain ⟨j, _, hrj⟩ := hr
  simp [← hrj]

lemma reshapeSlice_head_length (s : Slice) (P : ℕ) :
    ((reshapeSlice s P P).getD 0 []).length = P := by
  cases P with
  | zero => rfl
  | succ n =>
    simp [reshapeSlice, List.range_succ_eq_map, List.getD_cons_zero]

lemma getD_map_lt {α β : Type} (g : α → β) (v : List α) (dA : α) (dB : β)
    (j : ℕ) (h : j < v.length) :
    (v.map g).getD j dB = g (v.getD j dA) := by
  rw [List.getD_eq_getElem _ _ (by simpa using h), List.getD_eq_getElem _ _ h,
    List.getElem_map]

lemma length_inferMask (a : Agent) (v : Vol) :
    (inferMask a v).length = v.length := by
  rw [inferMask_eq]; simp

lemma length_inferMaskUnpadded (a : Agent) (v : Vol) :
    (inferMaskUnpadded a v).length = v.length := by
  rw [inferMaskUnpadded_eq]; simp [med_reshape]

lemma getD_inferMask (a : Agent) (v : Vol) (j : ℕ) :
    (inferMask a v).getD j []
      = predSlice { a.model with evalMode := true } (v.getD j []) := by
  rw [inferMask_eq]
  by_cases h : j < v.length
  · exact getD_map_lt _ v [] [] j h
  · rw [List.getD_eq_default _ _ (by simpa using Nat.le_of_not_lt h),
      List.getD_eq_default _ _ (Nat.le_of_not_lt h), predSlice_nil]

lemma getD_med_reshape (v : Vol) (ns : ℕ × ℕ × ℕ) (j : ℕ) (h : j < ns.1) :
    (med_reshape v ns).getD j [] = reshapeSlice (v.getD j []) ns.2.1 ns.2.2 := by
  unfold med_reshape
  rw [List.getD_eq_getElem _ _ (by simpa using h), List.getElem_map,
    List.getElem_range]

lemma getD_inferMaskUnpadded (a : Agent) (v : Vol) (j : ℕ) (h : j < v.length) :
    (inferMaskUnpadded a v).getD j []
      = predSlice a.model
          (reshapeSlice (v.getD j []) a.patch_size a.patch_size) := by
  rw [inferMaskUnpadded_eq,
    getD_map_lt _ _ [] [] j (by simpa [length_med_reshape] using h),
    getD_med_reshape v _ j h]

/-! ### Lemmas about the degenerate all-zero slice -/

lemma foldl_max_zero :
    ∀ (xs : List ℚ) (acc : ℚ), (∀ x ∈ xs, x = 0) → acc = 0 →
      xs.foldl max acc = 0 := by
  intro xs
  induction xs with
  | nil => intro acc _ ha; simpa using ha
  | cons y ys ih =>
    intro acc h ha
    have hy : y = 0 := h y (List.mem_cons_self y ys)
    simp only [List.foldl_cons]
    exact ih (max acc y) (fun x hx => h x (List.mem_cons_of_mem y hx))
      (by rw [ha, hy]; simp)

lemma listMax_zero (l : List ℚ) (h : ∀ x ∈ l, x = 0) : listMax l = 0 := by
  cases l with
  | nil => rfl
  | cons x xs =>
    exact foldl_max_zero xs x (fun y hy => h y (List.mem_cons_of_mem x hy))
      (h x (List.mem_cons_self x xs))

lemma sliceMax_zero (s : Slice) (h : ∀ row ∈ s, ∀ x ∈ row, x = 0) :
    sliceMax s = 0 := by
  refine listMax_zero _ ?_
  intro x hx
  obtain ⟨row, hrow, hxr⟩ := List.mem_flatten.mp hx
  exact h row hrow x hxr

lemma normSlice_nan (s : Slice) (h : ∀ row ∈ s, ∀ x ∈ row, x = 0) :
    ∀ row ∈ normSlice s, ∀ y ∈ row, y = Val.nan := by
  intro row hrow y hy
  simp only [normSlice, List.mem_map] at hrow
  obtain ⟨orig, horig, hmap⟩ := hrow
  rw [← hmap] at hy
  simp only [List.mem_map] at hy
  obtain ⟨x, hx, hvy⟩ := hy
  have hx0 : x = 0 := h orig horig x hx
  rw [← hvy, hx0, sliceMax_zero s h]
  simp [vdiv]

lemma getD_zero_row (row : List ℚ) (h : ∀ x ∈ row, x = 0) (k : ℕ) :
    row.getD k 0 = 0 := by
  by_cases hk : k < row.length
  · rw [List.getD_eq_getElem _ _ hk]
    exact h _ (List.getElem_mem hk)
  · exact List.getD_eq_default _ _ (Nat.le_of_not_lt hk)

lemma reshapeSlice_zero (s : Slice) (h : ∀ row ∈ s, ∀ x ∈ row, x = 0)
    (H W : ℕ) : ∀ row ∈ reshapeSlice s H W, ∀ x ∈ row, x = 0 := by
  intro row hrow x hx
  simp only [reshapeSlice, List.mem_map] at hrow
  obtain ⟨j, _, hrj⟩ := hrow
  rw [← hrj] at hx
  simp only [List.mem_map] at hx
  obtain ⟨k, _, hxk⟩ := hx
  rw [← hxk]
  by_cases hj : j < s.length
  · rw [List.getD_eq_getElem _ _ hj] at *
    exact getD_zero_row _ (h _ (List.getElem_mem hj)) k
  · rw [List.getD_eq_default _ _ (Nat.le_of_not_lt hj)]
    rfl

lemma predSlice_entry_lt (m : ModelState) (hm : 0 < m.numClasses) (s : Slice) :
    ∀ r ∈ predSlice m s, ∀ e ∈ r, e < m.numClasses := by
  intro r hr e he
  simp only [predSlice, List.mem_map] at hr
  obtain ⟨i, _, hri⟩ := hr
  rw [← hri] at he
  simp only [List.mem_map] at he
  obtain ⟨j, _, hej⟩ := he
  rw [← hej]
  have hne : ((List.range m.numClasses).map
      (fun c => m.fwd (normSlice s) c i j)) ≠ [] := by
    simp only [ne_eq, List.map_eq_nil_iff, List.range_eq_nil]
    omega
  have := argmaxIdx_lt _ hne
  simpa using this

lemma reshapeSlice_entry (s : Slice) (H W j k : ℕ) (hj : j < H) (hk : k < W) :
    ((reshapeSlice s H W).getD j []).getD k 0 = (s.getD j []).getD k 0 := by
  have h1 : (reshapeSlice s H W).getD j []
      = (List.range W).map (fun k => (s.getD j []).getD k 0) := by
    unfold reshapeSlice
    rw [List.getD_eq_getElem _ _ (by simpa using hj)]
    rw [List.getElem_map, List.getElem_range]
  rw [h1, List.getD_eq_getElem _ _ (by simpa using hk)]
  rw [List.getElem_map, List.getElem_range]

/-! ### Concrete fixtures for the witnesses -/

/-- A concrete score function: class 1 scores highest everywhere. -/
def testFwd : List (List Val) → ℕ → ℕ → ℕ → ℚ :=
  fun _ c _ _ => if c = 1 then 1 else 0

/-- A concrete model in training mode with 3 classes. -/
def testModel : ModelState :=
  { numClasses := 3
    fwd := testFwd
    evalMode := false
    loadedFrom := none
    device := "cpu" }

/-- A concrete agent with patch size 2. -/
def testAgent : Agent :=
  { model := testModel, patch_size := 2, device := "cpu" }

/-- A second concrete agent with a different forward function. -/
def testAgentB : Agent :=
  { model := { testModel with fwd := fun _ _ _ _ => 5 }
    patch_size := 2
    device := "cpu" }

/-- A volume whose slice 0 is all-zero and whose slice 1 is not. -/
def volZero : Vol := [[[0, 0], [0, 0]], [[1, 2], [3, 4]]]

/-- A 1 × 2 × 2 volume with strictly positive entries. -/
def volPos : Vol := [[[1, 2], [3, 4]]]

/-- The spec's padding example: a volume of shape [2, 3, 3]. -/
def volPad : Vol :=
  [[[1, 2, 3], [4, 5, 6], [7, 8, 9]],
   [[2, 0, 1], [5, 3, 1], [6, 2, 4]]]

/-! ### The claims -/

/-- C1: for every input volume of shape [D,H,W],
`single_volume_inference_unpadded` returns a 3D array of shape
[D, patch_size, patch_size]: the depth equals the input depth and both
spatial extents equal the configured patch size, whatever H and W are. -/
theorem C1_unpadded_output_shape (a : Agent) (v : Vol) :
    hasShape (inferMaskUnpadded a v) v.length a.patch_size a.patch_size := by
  rw [inferMaskUnpadded_eq]
  refine ⟨by simp [med_reshape], ?_⟩
  intro s hs
  simp only [List.mem_map] at hs
  obtain ⟨t, ht, hts⟩ := hs
  simp only [med_reshape, List.mem_map] at ht
  obtain ⟨i, _, hti⟩ := ht
  subst hts
  subst hti
  constructor
  · rw [length_predSlice, length_reshapeSlice]
  · intro r hr
    rw [mem_predSlice_length _ _ r hr, reshapeSlice_head_length]

/-- C1 witness: at a concrete agent (patch size 2) and a concrete
1 × 2 × 2 volume the mask has shape [1, 2, 2]. -/
theorem C1_unpadded_output_shape_witness :
    hasShape (inferMaskUnpadded testAgent volPos) 1 2 2 :=
  C1_unpadded_output_shape testAgent volPos

/-- C2 counterexample: the claim says every inference entry point sets the
model to evaluation mode before running its slice loop.  It is false for
`single_volume_inference_unpadded`: starting from a concrete agent whose
model is in training mode, the agent after the call still has
`evalMode = false` — the function contains no call to the eval toggle. -/
theorem C2_counterexample_unpadded_no_eval :
    testAgent.model.evalMode = false
    ∧ (single_volume_inference_unpadded testAgent volPos).2.model.evalMode
        = false :=
  ⟨rfl, rfl⟩

/-- C2 (amended): `single_volume_inference` sets the model to evaluation
mode as its first step, and its slice loop runs on the eval-mode model;
`single_volume_inference_unpadded`, however, never calls the eval toggle —
it leaves the agent (the model's mode included) exactly as it found it and
runs the same slice loop on the unmodified model. -/
theorem C2_amended_eval_mode (a : Agent) (v : Vol) :
    (single_volume_inference a v).2.model.evalMode = true
    ∧ inferMask a v
        = v.map (fun s => predSlice { a.model with evalMode := true } s)
    ∧ (single_volume_inference_unpadded a v).2 = a
    ∧ inferMaskUnpadded a v
        = (med_reshape v (v.length, a.patch_size, a.patch_size)).map
            (fun s => predSlice a.model s) :=
  ⟨rfl, inferMask_eq a v, rfl, inferMaskUnpadded_eq a v⟩

/-- C3: for a volume with an all-zero (nonempty) slice at index k, the
per-slice normalization in both inference operations divides slice k by a
maximum of 0 with no guard (every normalized entry of slice k is NaN, in
the unpadded path likewise after the zero-preserving reshape); the call
raises no error — the output mask is produced in full, with one entry per
input slice — and the contamination is confined to output slice k: each
output slice j is a function of input slice j alone, so any two volumes of
equal depth that agree on slice j get the same output slice j from either
operation. -/
theorem C3_degenerate_slice (a : Agent) (v : Vol) (k : ℕ)
    (hk : k < v.length)
    (hzero : ∀ row ∈ v.getD k [], ∀ x ∈ row, x = 0)
    (hne : (v.getD k []).flatten ≠ []) :
    sliceMax (v.getD k []) = 0
    ∧ (∀ row ∈ normSlice (v.getD k []), ∀ y ∈ row, y = Val.nan)
    ∧ (∀ row ∈ normSlice
          (reshapeSlice (v.getD k []) a.patch_size a.patch_size),
        ∀ y ∈ row, y = Val.nan)
    ∧ (inferMask a v).length = v.length
    ∧ (inferMaskUnpadded a v).length = v.length
    ∧ (∀ (w : Vol) (j : ℕ), w.length = v.length →
        w.getD j [] = v.getD j [] →
        (inferMask a w).getD j [] = (inferMask a v).getD j []
        ∧ (inferMaskUnpadded a w).getD j []
            = (inferMaskUnpadded a v).getD j []) := by
  refine ⟨sliceMax_zero _ hzero, normSlice_nan _ hzero,
    normSlice_nan _ (reshapeSlice_zero _ hzero _ _),
    length_inferMask a v, length_inferMaskUnpadded a v, ?_⟩
  intro w j hw hwj
  constructor
  · rw [getD_inferMask, getD_inferMask, hwj]
  · by_cases hj : j < v.length
    · rw [getD_inferMaskUnpadded a w j (by omega),
        getD_inferMaskUnpadded a v j hj, hwj]
    · rw [List.getD_eq_default _ _
          (by rw [length_inferMaskUnpadded]; omega),
        List.getD_eq_default _ _
          (by rw [length_inferMaskUnpadded]; omega)]

/-- C3 witness: on a concrete volume whose slice 0 is the all-zero 2 × 2
slice, the maximum is 0 and every normalized entry of slice 0 is NaN. -/
theorem C3_degenerate_slice_witness :
    (∀ row ∈ volZero.getD 0 [], ∀ x ∈ row, x = 0)
    ∧ sliceMax (volZero.getD 0 []) = 0
    ∧ (∀ row ∈ normSlice (volZero.getD 0 []), ∀ y ∈ row, y = Val.nan) :=
  ⟨by decide,
   (C3_degenerate_slice testAgent volZero 0 (by decide) (by decide)
     (by decide)).1,
   (C3_degenerate_slice testAgent volZero 0 (by decide) (by decide)
     (by decide)).2.1⟩

/-- C4: when every slice of the input has a nonzero maximum, every value in
the mask returned by either inference operation is a class index strictly
below the model's class count (3 for the default model): each entry is an
argmax over the class axis of the model's per-slice output. -/
theorem C4_label_range (a : Agent) (v : Vol)
    (hc : 0 < a.model.numClasses)
    (hmax : ∀ s ∈ v, sliceMax s ≠ 0) :
    (∀ s ∈ inferMask a v, ∀ r ∈ s, ∀ e ∈ r, e < a.model.numClasses)
    ∧ (∀ s ∈ inferMaskUnpadded a v, ∀ r ∈ s, ∀ e ∈ r,
        e < a.model.numClasses) := by
  constructor
  · rw [inferMask_eq]
    intro s hs
    simp only [List.mem_map] at hs
    obtain ⟨t, _, hts⟩ := hs
    subst hts
    exact predSlice_entry_lt _ hc t
  · rw [inferMaskUnpadded_eq]
    intro s hs
    simp only [List.mem_map] at hs
    obtain ⟨t, _, hts⟩ := hs
    subst hts
    exact predSlice_entry_lt _ hc t

/-- C4 witness: the concrete 3-class agent on a concrete positive volume:
every mask value is below 3, for both entry points. -/
theorem C4_label_range_witness :
    (0 < testAgent.model.numClasses)
    ∧ (∀ s ∈ volPos, sliceMax s ≠ 0)
    ∧ (∀ s ∈ inferMask testAgent volPos, ∀ r ∈ s, ∀ e ∈ r,
        e < testAgent.model.numClasses) :=
  ⟨by decide, by decide,
   (C4_label_range testAgent volPos (by decide) (by decide)).1⟩

/-- C5: the shape-conforming step maps a volume of depth D to a new array
of shape [D, patch_size, patch_size] with depth unchanged, and for every
in-range position its entry equals the input's entry at the same low-side
indices — the input's default-extended lookup, so positions beyond the
input's extent read the zero fill (high-side padding) and a larger input
is cropped to its low-index sub-block. -/
theorem C5_med_reshape_pad_crop (v : Vol) (P : ℕ) :
    (med_reshape v (v.length, P, P)).length = v.length
    ∧ (∀ s ∈ med_reshape v (v.length, P, P),
        s.length = P ∧ ∀ r ∈ s, r.length = P)
    ∧ (∀ i j k, i < v.length → j < P → k < P →
        (((med_reshape v (v.length, P, P)).getD i []).getD j []).getD k 0
          = ((v.getD i []).getD j []).getD k 0) := by
  refine ⟨length_med_reshape v _, ?_, ?_⟩
  · intro s hs
    simp only [med_reshape, List.mem_map] at hs
    obtain ⟨i, _, his⟩ := hs
    subst his
    exact ⟨length_reshapeSlice _ _ _, mem_reshapeSlice_length _ _ _⟩
  · intro i j k hi hj hk
    rw [getD_med_reshape v _ i hi]
    exact reshapeSlice_entry _ _ _ _ _ hj hk

/-- C5 witness: the spec's padding example — a [2,3,3] volume conformed to
patch size 5 keeps its depth, gets 5 × 5 slices, and entry (0,1,2) is
preserved. -/
theorem C5_med_reshape_pad_crop_witness :
    (med_reshape volPad (2, 5, 5)).length = 2
    ∧ (∀ s ∈ med_reshape volPad (2, 5, 5),
        s.length = 5 ∧ ∀ r ∈ s, r.length = 5)
    ∧ (((med_reshape volPad (2, 5, 5)).getD 0 []).getD 1 []).getD 2 0
        = ((volPad.getD 0 []).getD 1 []).getD 2 0 :=
  ⟨(C5_med_reshape_pad_crop volPad 5).1,
   (C5_med_reshape_pad_crop volPad 5).2.1,
   (C5_med_reshape_pad_crop volPad 5).2.2 0 1 2 (by decide) (by decide)
     (by decide)⟩

/-- C6: construction with no model supplied creates a default network with
3 output classes; parameters are loaded (with storage mapped to the
configured target) exactly when the supplied path is non-empty (for a
fresh model — one with no load recorded yet); in every case the model ends
up on the configured execution target, and patch_size and the target
identifier are stored. -/
theorem C6_construction (path : String) (model : Option ModelState)
    (device : String) (ps : ℕ)
    (hm : ∀ m, model = some m → m.loadedFrom = none) :
    (model = none → (init path model device ps).model.numClasses = 3)
    ∧ ((init path model device ps).model.loadedFrom = some (path, device)
        ↔ path ≠ "")
    ∧ (init path model device ps).model.device = device
    ∧ (init path model device ps).patch_size = ps
    ∧ (init path model device ps).device = device := by
  cases model with
  | none =>
    by_cases hp : path = "" <;>
      simp [init, UNet, hp]
  | some m =>
    have hm0 := hm m rfl
    by_cases hp : path = "" <;>
      simp [init, hp, hm0]

/-- C6 witness: constructing with a non-empty path, no model, target "cpu"
and patch size 64 yields a 3-class model with the load recorded against
"cpu", and stores the configuration. -/
theorem C6_construction_witness :
    (init "weights.pth" none "cpu" 64).model.numClasses = 3
    ∧ (init "weights.pth" none "cpu" 64).model.loadedFrom
        = some ("weights.pth", "cpu")
    ∧ (init "weights.pth" none "cpu" 64).model.device = "cpu"
    ∧ (init "weights.pth" none "cpu" 64).patch_size = 64 :=
  have h := C6_construction "weights.pth" none "cpu" 64
    (fun m hm => Option.noConfusion hm)
  ⟨h.1 rfl, h.2.1.mpr (by decide), h.2.2.1, h.2.2.2.1⟩

/-- C7: for a fixed model whose forward pass is a deterministic function
(the embedding's `fwd` is a pure function) and a fixed input volume,
repeating either call gives the identical output array: the only state
either call can change is the eval-mode flag, which the forward pass does
not read, so running each entry point again on the post-call agent
reproduces its mask exactly. -/
theorem C7_determinism (a : Agent) (v : Vol) :
    (single_volume_inference (single_volume_inference a v).2 v).1.2
      = (single_volume_inference a v).1.2
    ∧ (single_volume_inference_unpadded
        (single_volume_inference_unpadded a v).2 v).1.2
      = (single_volume_inference_unpadded a v).1.2 :=
  ⟨rfl, rfl⟩

/-- C8: neither inference operation mutates the caller's volume.  The loop
state threads the array the loop could write through `loopStep`, and only
the `slices` buffer is ever written: for `single_volume_inference` the
array that comes back out of the loop is exactly the caller's volume, and
for `single_volume_inference_unpadded` the loop runs over (and leaves
intact) the freshly built `med_reshape` output — the caller's array never
enters the loop at all, the local name having been rebound. -/
theorem C8_input_not_mutated (a : Agent) (v : Vol) :
    (single_volume_inference a v).1.1 = v
    ∧ (single_volume_inference_unpadded a v).1.1
        = med_reshape v (v.length, a.patch_size, a.patch_size) :=
  ⟨sliceLoop_fst _ _, sliceLoop_fst _ _⟩

/-- C9: after construction no operation reassigns the agent's model
reference, patch_size or execution-target identifier: after
`single_volume_inference` every stored field except the model's eval-mode
flag is unchanged (the toggle mutates the referenced model in place, not
the reference), and `single_volume_inference_unpadded` returns the agent
exactly as it was; neither retains any other per-call state. -/
theorem C9_fields_immutable (a : Agent) (v : Vol) :
    (single_volume_inference a v).2.patch_size = a.patch_size
    ∧ (single_volume_inference a v).2.device = a.device
    ∧ (single_volume_inference a v).2.model.numClasses
        = a.model.numClasses
    ∧ (single_volume_inference a v).2.model.fwd = a.model.fwd
    ∧ (single_volume_inference a v).2.model.loadedFrom
        = a.model.loadedFrom
    ∧ (single_volume_inference a v).2.model.device = a.model.device
    ∧ (single_volume_inference_unpadded a v).2 = a :=
  ⟨rfl, rfl, rfl, rfl, rfl, rfl, rfl⟩

/-- C10: on a volume of zero depth both entry points return the empty mask
(the shape-[0,·,·] array) and never invoke the model's forward pass: the
result is identical for any two agents — in particular agents whose
forward functions differ everywhere — and with no slice to process no
normalization division is performed and no error is raised (the loop body
never runs). -/
theorem C10_empty_volume (a b : Agent) (v : Vol) (h : v.length = 0) :
    inferMask a v = []
    ∧ inferMaskUnpadded a v = []
    ∧ inferMask a v = inferMask b v
    ∧ inferMaskUnpadded a v = inferMaskUnpadded b v := by
  have hv : v = [] := List.length_eq_zero.mp h
  subst hv
  refine ⟨?_, ?_, ?_, ?_⟩ <;>
    simp [inferMask_eq, inferMaskUnpadded_eq, med_reshape]

/-- C10 witness: both entry points return the empty mask on the empty
volume, for two agents with different forward functions. -/
theorem C10_empty_volume_witness :
    ([] : Vol).length = 0
    ∧ inferMask testAgent [] = []
    ∧ inferMaskUnpadded testAgent [] = []
    ∧ inferMask testAgent [] = inferMask testAgentB [] :=
  ⟨rfl,
   (C10_empty_volume testAgent testAgentB [] rfl).1,
   (C10_empty_volume testAgent testAgentB [] rfl).2.1,
   (C10_empty_volume testAgent testAgentB [] rfl).2.2.1⟩

end UNetInference
